import Mathlib

/-!
A verification development for the go-sort declaration-reordering engine
(`go-sort.go`).  The Go source is shallowly embedded: byte positions are
1-based `token.Pos` values, the file content is a list of characters (one
per byte), and each Go function of the engine is translated one-to-one
into a Lean function of the same name.  The external collaborators
(`parser.ParseFile`, `ast.SortImports`, `format.Source`, the filesystem)
are parameters / explicit state.
-/

namespace GoSort

/-- The receiver-type expression shapes inspected by `typeNameFromExpr` and
`getFuncReceiverTypeName`: `*ast.Ident`, `*ast.StarExpr`, `*ast.IndexExpr`
(`T[P]`), `*ast.IndexListExpr` (`T[A, B]`); every other `ast.Expr` shape is
collapsed into `otherExpr` (the Go code treats them all by its `default`
branches). -/
inductive Expr where
  | ident (name : String)
  | star (x : Expr)
  | indexExpr (x : Expr)
  | indexListExpr (x : Expr)
  | otherExpr
deriving DecidableEq

/-- The `token.Token` values a `*ast.GenDecl` can carry. -/
inductive Tok where
  | importTok
  | constTok
  | varTok
  | typeTok
deriving DecidableEq

/-- The `ast.Spec` shapes: `*ast.ImportSpec`, `*ast.ValueSpec` (its
`Names` field), `*ast.TypeSpec` (its `Name` field; `none` models a nil
`Name`, which the Go code checks for). -/
inductive Spec where
  | importSpec (path : String)
  | valueSpec (names : List String)
  | typeSpec (name? : Option String)
deriving DecidableEq

/-- A `*ast.GenDecl`.  `pos`/`endPos` are `Pos()`/`End()` (1-based, `End()`
one past the last byte of the declaration, doc comment excluded);
`docPos?` is `Doc.Pos()` when the declaration has a doc comment. -/
structure GenDecl where
  tok : Tok
  specs : List Spec
  pos : Nat
  endPos : Nat
  docPos? : Option Nat
deriving DecidableEq

/-- A `*ast.FuncDecl`.  `recv?` models the `Recv *ast.FieldList`: `none` is
a nil receiver list, `some ts` holds the `Type` of each receiver field.
The parser never produces a nil `Name`, so `name` is a plain string. -/
structure FuncDecl where
  name : String
  recv? : Option (List Expr)
  pos : Nat
  endPos : Nat
  docPos? : Option Nat
deriving DecidableEq

/-- An `ast.Decl`: `*ast.GenDecl`, `*ast.FuncDecl` or `*ast.BadDecl` (the
Go code's type switches skip the latter). -/
inductive Decl where
  | gen (d : GenDecl)
  | func (d : FuncDecl)
  | bad (pos endPos : Nat)
deriving DecidableEq

/-- An `*ast.CommentGroup`, reduced to its `Pos()`/`End()` span. -/
structure CommentGroup where
  pos : Nat
  endPos : Nat
deriving DecidableEq

/-- An `*ast.File`: the position of the `package` keyword, the top-level
declarations in source order, and the comment list in source order. -/
structure File where
  package : Nat
  decls : List Decl
  comments : List CommentGroup
deriving DecidableEq

/-- Go slicing `content[a:b]` over the immutable source buffer (0-based,
`b` exclusive; out-of-range bounds clamp instead of panicking). -/
def sliceContent (content : List Char) (a b : Nat) : List Char :=
  (content.take b).drop a

/-- `typeNameFromExpr` from the source: the base identifier of a receiver
type expression (`T`, `T[P]`, `T[A, B]`), otherwise the empty string. -/
def typeNameFromExpr : Expr → String
  | .ident name => name
  | .indexExpr (.ident name) => name
  | .indexExpr _ => ""
  | .indexListExpr (.ident name) => name
  | .indexListExpr _ => ""
  | _ => ""

/-- `getFuncReceiverTypeName` from the source: for a function declaration
with a nonempty receiver list, unwrap one `StarExpr` level of the first
receiver field's type and take its base identifier; `""` otherwise. -/
def getFuncReceiverTypeName : Decl → String
  | .func fd =>
    match fd.recv? with
    | none => ""
    | some [] => ""
    | some (.star x :: _) => typeNameFromExpr x
    | some (t :: _) => typeNameFromExpr t
  | _ => ""

/-- Whether a spec is a `TypeSpec` with non-nil name equal to `name`
(the inner loop of `getTypeFromFile`). -/
def specHasTypeName (name : String) : Spec → Bool
  | .typeSpec (some n) => n = name
  | _ => false

/-- `getTypeFromFile` from the source: the first `type` `GenDecl` that
declares a type named `name`; `none` for the empty name or when no such
declaration exists. -/
def getTypeFromFile (f : File) (name : String) : Option Decl :=
  if name = "" then none
  else f.decls.find? (fun d =>
    match d with
    | .gen gd => gd.tok = .typeTok && gd.specs.any (specHasTypeName name)
    | _ => false)

/-- `decl.Pos()` for any declaration kind (doc comment excluded). -/
def declPos : Decl → Nat
  | .gen gd => gd.pos
  | .func fd => fd.pos
  | .bad p _ => p

/-- `decl.End()` for any declaration kind. -/
def declEnd : Decl → Nat
  | .gen gd => gd.endPos
  | .func fd => fd.endPos
  | .bad _ e => e

/-- `isBeforePackageComment` from the source. -/
def isBeforePackageComment (f : File) (cg : CommentGroup) : Bool :=
  cg.pos < f.package

/-- `isDeclComment` from the source: the comment group ends one byte
before some declaration starts. -/
def isDeclComment (f : File) (cg : CommentGroup) : Bool :=
  f.decls.any (fun d => cg.endPos + 1 = declPos d)

/-- `isStatementComment` from the source: the comment group lies strictly
inside some declaration's span. -/
def isStatementComment (f : File) (cg : CommentGroup) : Bool :=
  f.decls.any (fun d => declPos d < cg.pos && cg.endPos < declEnd d)

/-- `isExportedName` from the source: the first byte of the name is an
ASCII upper-case letter. -/
def isExportedName (name : String) : Bool :=
  match name.data with
  | [] => false
  | c :: _ => decide ('A' ≤ c ∧ c ≤ 'Z')

/-- `letterDeclList.Less` from the source, as a function of the two
`Letter` fields: exported first, then case-insensitive order, then the
raw string compare as tie-breaker.  (`strings.ToLower` is modelled on the
ASCII range, and Go's byte-wise string compare as the character-wise
compare, which agrees with it on UTF-8.) -/
def letterLess (a b : String) : Bool :=
  let ai := isExportedName a
  let bi := isExportedName b
  if ai ≠ bi then ai
  else
    let al := a.toLower
    let bl := b.toLower
    if al ≠ bl then decide (al < bl)
    else decide (a < b)

/-- `sort.Stable` applied to a `letterDeclList`: the stable `mergeSort`
keeps a pair in input order exactly when `letterLess` does not order the
second strictly before the first, which is `sort.Stable`'s contract.  The
payload carried next to the `Letter` is typed (`GenDecl` or `FuncDecl`)
because every Go call site builds the list from a single declaration kind
and downcasts it back when writing. -/
def sortLetterDecls {α : Type} (l : List (String × α)) : List (String × α) :=
  l.mergeSort (fun p q => !(letterLess q.1 p.1))

/-- The start offset used by `write2bufAsDecl`/`write2bufAsFunc`:
`Doc.Pos()-1` when a doc comment is attached, else `Pos()-1`. -/
def declStartPos (pos : Nat) (docPos? : Option Nat) : Nat :=
  match docPos? with
  | some p => p - 1
  | none => pos - 1

/-- `write2bufAsDecl` from the source: `content[posStart:End()]` (the
declaration with its doc comment plus the single byte following it) and
an optional newline. -/
def write2bufAsDecl (content : List Char) (gd : GenDecl) (writeLine : Bool) : List Char :=
  sliceContent content (declStartPos gd.pos gd.docPos?) gd.endPos ++
    (if writeLine then ['\n'] else [])

/-- `write2bufAsFunc` from the source (same slicing for a `FuncDecl`). -/
def write2bufAsFunc (content : List Char) (fd : FuncDecl) (writeLine : Bool) : List Char :=
  sliceContent content (declStartPos fd.pos fd.docPos?) fd.endPos ++
    (if writeLine then ['\n'] else [])

/-- The collection loop of `write2bufFunc`: every function declaration
except those named `main`/`init` and those whose receiver type resolves
to a type declared in the same file. -/
def write2bufFuncList (f : File) : List (String × FuncDecl) :=
  f.decls.filterMap (fun d =>
    match d with
    | .func fd =>
      if fd.name = "main" ∨ fd.name = "init" then none
      else if fd.recv?.isSome ∧ (getTypeFromFile f (getFuncReceiverTypeName (.func fd))).isSome
        then none
      else some (fd.name, fd)
    | _ => none)

/-- `write2bufFunc` from the source: stable-sort the collected functions
by `Letter` and write each. -/
def write2bufFunc (f : File) (content : List Char) (writeLine : Bool) : List Char :=
  ((sortLetterDecls (write2bufFuncList f)).map
    (fun p => write2bufAsFunc content p.2 writeLine)).flatten

/-- The collection loop of `writeTypesReceiverFunc`: every function
declaration with a receiver whose resolved type name equals `name`. -/
def writeTypesReceiverFuncList (f : File) (name : String) : List (String × FuncDecl) :=
  f.decls.filterMap (fun d =>
    match d with
    | .func fd =>
      if fd.recv?.isSome = false then none
      else if getFuncReceiverTypeName (.func fd) ≠ name then none
      else some (fd.name, fd)
    | _ => none)

/-- `writeTypesReceiverFunc` from the source: stable-sort the methods of
one type by `Letter` and write each. -/
def writeTypesReceiverFunc (f : File) (name : String) (content : List Char)
    (writeLine : Bool) : List Char :=
  ((sortLetterDecls (writeTypesReceiverFuncList f name)).map
    (fun p => write2bufAsFunc content p.2 writeLine)).flatten

/-- The `Letter` selection of `write2bufGenDecl`: the first spec's first
name (`const`/`var`) or the first spec's type name (`type`); `none` when
the declaration has no specs or the first spec has the wrong shape. -/
def genDeclLetter (tk : Tok) (gd : GenDecl) : Option String :=
  match tk with
  | .constTok | .varTok =>
    match gd.specs with
    | .valueSpec (n :: _) :: _ => some n
    | _ => none
  | .typeTok =>
    match gd.specs with
    | .typeSpec (some n) :: _ => some n
    | _ => none
  | .importTok => none

/-- The collection loop of `write2bufGenDecl`: every `GenDecl` whose token
matches `tk` (imports excluded) and that yields a `Letter`. -/
def write2bufGenDeclList (f : File) (tk : Tok) : List (String × GenDecl) :=
  f.decls.filterMap (fun d =>
    match d with
    | .gen gd =>
      if gd.tok ≠ tk ∨ gd.tok = .importTok then none
      else (genDeclLetter tk gd).map (fun n => (n, gd))
    | _ => none)

/-- The type names of all specs of a `type` group (the emission loop of
`write2bufGenDecl` calls `writeTypesReceiverFunc` for each of them). -/
def typeSpecNames (gd : GenDecl) : List String :=
  gd.specs.filterMap (fun s =>
    match s with
    | .typeSpec (some n) => some n
    | _ => none)

/-- `write2bufGenDecl` from the source: stable-sort the collected groups
by `Letter`, write each, and after every `type` group write the receiver
functions of each of its specs. -/
def write2bufGenDecl (f : File) (content : List Char) (tk : Tok)
    (writeLine : Bool) : List Char :=
  ((sortLetterDecls (write2bufGenDeclList f tk)).map
    (fun p =>
      write2bufAsDecl content p.2 writeLine ++
      (if p.2.tok = .typeTok then
        ((typeSpecNames p.2).map
          (fun n => writeTypesReceiverFunc f n content writeLine)).flatten
       else []))).flatten

/-- `write2bufTop` from the source: every `import` declaration, in source
order, each with a trailing newline. -/
def write2bufTop (f : File) (content : List Char) : List Char :=
  ((f.decls.filterMap (fun d =>
    match d with
    | .gen gd => if gd.tok = .importTok then some gd else none
    | _ => none)).map
      (fun gd => write2bufAsDecl content gd true)).flatten

/-- `write2bufTopComment` from the source: every comment group that is not
a declaration comment, not a statement comment and not before the package
clause, in source order, each followed by a newline. -/
def write2bufTopComment (f : File) (content : List Char) : List Char :=
  ((f.comments.filterMap (fun cg =>
    if ¬ isDeclComment f cg ∧ ¬ isStatementComment f cg ∧
        ¬ isBeforePackageComment f cg
    then some (sliceContent content (cg.pos - 1) cg.endPos ++ ['\n'])
    else none)).flatten)

/-- `writeMain` from the source: every receiverless function named `main`
or `init`, in source order, each with a trailing newline. -/
def writeMain (f : File) (content : List Char) : List Char :=
  ((f.decls.filterMap (fun d =>
    match d with
    | .func fd =>
      if fd.recv?.isSome then none
      else if fd.name = "main" ∨ fd.name = "init"
        then some (write2bufAsFunc content fd true)
      else none
    | _ => none)).flatten)

/-- `fSet.Position(pos).Line`: one plus the number of newlines strictly
before the 0-based offset `pos - 1`. -/
def lineOfPos (content : List Char) (pos : Nat) : Nat :=
  (content.take (pos - 1)).count '\n' + 1

/-- The scanning loop of `writePkg`: advance past `n` newlines starting at
offset `idx`, stopping early when `bytes.IndexByte` finds none. -/
def writePkgIdx (content : List Char) : Nat → Nat → Nat
  | idx, 0 => idx
  | idx, n + 1 =>
    match (content.drop idx).findIdx? (fun c => c = '\n') with
    | none => idx
    | some c => writePkgIdx content (idx + c + 1) n

/-- `writePkg` from the source: the prefix of the file through the newline
that ends the package clause's line. -/
def writePkg (f : File) (content : List Char) : List Char :=
  content.take (writePkgIdx content 0 (lineOfPos content f.package))

/-- The buffer assembled by `write2buf` before the final `format.Source`
call: imports, then the free-floating comment block, then the entry
points, then the sorted `const`, `var` and `type` sections (the latter
with receiver functions), then the remaining sorted functions. -/
def write2bufPre (f : File) (content : List Char) : List Char :=
  write2bufTop f content ++
  write2bufTopComment f content ++
  writeMain f content ++
  write2bufGenDecl f content .constTok false ++ ['\n'] ++
  write2bufGenDecl f content .varTok false ++ ['\n'] ++
  write2bufGenDecl f content .typeTok true ++
  write2bufFunc f content true

/-- The full pre-formatter buffer of `sortActionByFilename`: `writePkg`
output followed by the `write2buf` sections. -/
def assemble (f : File) (content : List Char) : List Char :=
  writePkg f content ++ write2bufPre f content

/-- The filesystem visible to `sortActionByFilename`: a map from
filenames to file contents. -/
structure OsState where
  files : String → Option (List Char)

/-- `os.WriteFile`: replace one file's bytes. -/
def writeFileState (st : OsState) (filename : String) (out : List Char) : OsState :=
  ⟨fun n => if n = filename then some out else st.files n⟩

/-- `sortActionByFilename` from the source, with the external collaborators
as parameters: `parseFile` is `parser.ParseFile` applied to the file's
bytes, `sortImportsExt` is `ast.SortImports` (which rewrites the parsed
tree in place), `formatSource` is `format.Source` (invoked at the end of
`write2buf` on the assembled buffer).  It returns the filesystem after the
call together with the `(changed, err)` result; every error path returns
before `os.WriteFile`, so the state is unchanged there. -/
def sortActionByFilename
    (parseFile : List Char → Except String File)
    (sortImportsExt : File → File)
    (formatSource : List Char → Except String (List Char))
    (st : OsState) (filename : String) (write : Bool) :
    OsState × Except String Bool :=
  match st.files filename with
  | none => (st, .error ("open " ++ filename ++ ": no such file or directory"))
  | some content =>
    match parseFile content with
    | .error e => (st, .error e)
    | .ok f =>
      match formatSource (assemble (sortImportsExt f) content) with
      | .error e => (st, .error e)
      | .ok out =>
        let changed := decide (¬ content = out)
        if write then (writeFileState st filename out, .ok changed)
        else (st, .ok changed)

/-- The loop body of `sortFile` from the source: process the files in
order, stopping at the first error, which is wrapped with the offending
filename (`fmt.Errorf("sort file %s error: %w", ...)`). -/
def sortFile
    (parseFile : List Char → Except String File)
    (sortImportsExt : File → File)
    (formatSource : List Char → Except String (List Char))
    (write : Bool) :
    List String → OsState → OsState × Option String
  | [], st => (st, none)
  | file :: rest, st =>
    match sortActionByFilename parseFile sortImportsExt formatSource st file write with
    | (st', .ok _) => sortFile parseFile sortImportsExt formatSource write rest st'
    | (st', .error e) => (st', some ("sort file " ++ file ++ " error: " ++ e))

/-- The claim's SortKey for an identifier: visibility (exported first),
then the case-insensitive name, then the raw name, compared
lexicographically. -/
def sortKey (s : String) : Bool ×ₗ String ×ₗ String :=
  toLex (!isExportedName s, toLex (s.toLower, s))

theorem letterLess_iff (a b : String) :
    letterLess a b = true ↔ sortKey a < sortKey b := by
  unfold letterLess sortKey
  rcases h1 : isExportedName a <;> rcases h2 : isExportedName b <;>
    simp [Prod.Lex.lt_iff, h1, h2] <;>
  · by_cases hl : a.toLower = b.toLower <;> simp [hl]

theorem letterLess_irrefl (a : String) : letterLess a a = false := by
  rcases h : letterLess a a
  · rfl
  · exact absurd (lt_irrefl _ ((letterLess_iff a a).mp h)) (fun hh => hh)

theorem sortKey_inj {a b : String} (h : sortKey a = sortKey b) : a = b := by
  unfold sortKey at h
  have := congrArg (fun p => (ofLex p).2) h
  simpa using congrArg (fun q => (ofLex q).2) this

theorem letterLess_eq_false (a b : String) :
    letterLess a b = false ↔ sortKey b ≤ sortKey a := by
  rw [← not_lt]
  constructor
  · intro h hlt
    rw [(letterLess_iff a b).mpr hlt] at h
    cases h
  · intro h
    cases hh : letterLess a b
    · rfl
    · exact absurd ((letterLess_iff a b).mp hh) h

theorem sortLe_trans {α : Type} (p q r : String × α)
    (h1 : (!(letterLess q.1 p.1)) = true) (h2 : (!(letterLess r.1 q.1)) = true) :
    (!(letterLess r.1 p.1)) = true := by
  simp only [Bool.not_eq_true'] at *
  rw [letterLess_eq_false] at *
  exact le_trans h1 h2

theorem sortLe_total {α : Type} (p q : String × α) :
    ((!(letterLess q.1 p.1)) || (!(letterLess p.1 q.1))) = true := by
  rcases le_total (sortKey p.1) (sortKey q.1) with h | h
  · have : letterLess q.1 p.1 = false := (letterLess_eq_false _ _).mpr h
    simp [this]
  · have : letterLess p.1 q.1 = false := (letterLess_eq_false _ _).mpr h
    simp [this]

end GoSort

namespace GoSort

/-- The claim's ordering of two letters within a sorted group. -/
def claimOrdered (a b : String) : Prop :=
  (isExportedName a = true ∧ isExportedName b = false) ∨
  (isExportedName a = isExportedName b ∧ a.toLower < b.toLower) ∨
  (isExportedName a = isExportedName b ∧ a.toLower = b.toLower ∧ a < b) ∨
  a = b

theorem sortKey_lt_iff (a b : String) : sortKey a < sortKey b ↔
    (isExportedName a = true ∧ isExportedName b = false) ∨
    (isExportedName a = isExportedName b ∧
      (a.toLower < b.toLower ∨ (a.toLower = b.toLower ∧ a < b))) := by
  unfold sortKey
  rw [Prod.Lex.lt_iff]
  simp only [Prod.Lex.lt_iff]
  cases h1 : isExportedName a <;> cases h2 : isExportedName b <;>
    simp [Bool.lt_iff]

theorem sortKey_le_claimOrdered {a b : String} (h : sortKey a ≤ sortKey b) :
    claimOrdered a b := by
  rcases lt_or_eq_of_le h with h | h
  · rcases (sortKey_lt_iff a b).mp h with h | ⟨hv, h | ⟨hl, hr⟩⟩
    · exact Or.inl h
    · exact Or.inr (Or.inl ⟨hv, h⟩)
    · exact Or.inr (Or.inr (Or.inl ⟨hv, hl, hr⟩))
  · exact Or.inr (Or.inr (Or.inr (sortKey_inj h)))

/-- The conjunction of the claim's requirements on one sorted group. -/
def groupSortSpec {α : Type} (l : List (String × α)) : Prop :=
  (sortLetterDecls l).Perm l ∧
  (sortLetterDecls l).Pairwise (fun p q => claimOrdered p.1 q.1) ∧
  ∀ s : String, (sortLetterDecls l).filter (fun p => p.1 = s) =
    l.filter (fun p => p.1 = s)

theorem groupSortSpec_all {α : Type} (l : List (String × α)) : groupSortSpec l := by
  refine ⟨List.mergeSort_perm l _, ?_, ?_⟩
  · have hs := @List.sorted_mergeSort (String × α)
      (fun p q => !(letterLess q.1 p.1))
      (fun a b c => sortLe_trans a b c) (fun a b => sortLe_total a b) l
    refine hs.imp (fun {p q} h => ?_)
    exact sortKey_le_claimOrdered ((letterLess_eq_false q.1 p.1).mp
      (by simpa using h))
  · intro s
    have hsub : List.Sublist (l.filter (fun p => p.1 = s))
        (sortLetterDecls l) := by
      apply List.sublist_mergeSort
        (fun a b c => sortLe_trans a b c) (fun a b => sortLe_total a b)
      · apply List.pairwise_of_forall_mem_list
        intro p hp q hq
        have hps := List.of_mem_filter hp
        have hqs := List.of_mem_filter hq
        have : q.1 = p.1 := by
          simp only [decide_eq_true_eq] at hps hqs
          rw [hps, hqs]
        rw [this, letterLess_irrefl]
        rfl
      · exact List.filter_sublist l
    have hperm : List.Perm ((sortLetterDecls l).filter (fun p => p.1 = s))
        (l.filter (fun p => p.1 = s)) :=
      (List.mergeSort_perm l _).filter _
    have hsub2 : List.Sublist (l.filter (fun p => p.1 = s))
        ((sortLetterDecls l).filter (fun p => p.1 = s)) := by
      have h2 := hsub.filter (fun p => decide (p.1 = s))
      rw [List.filter_filter] at h2
      simpa [Bool.and_self] using h2
    exact (hsub2.eq_of_length hperm.length_eq.symm).symm

/-- C6: within each sorted group (constant groups, variable groups, type
groups, methods of one type, ungrouped functions) the emitted order is a
stable sort of the collected declarations on the primary identifier:
every exported identifier strictly precedes every non-exported one, ties
are broken by case-insensitive lexical order, then by the exact
case-sensitive compare, and byte-identical identifiers retain their
original relative order (the sorted group filtered to any one identifier
equals the collected group so filtered). -/
theorem claim_C6_group_sorting (f : File) (tk : Tok) (name : String) :
    groupSortSpec (write2bufGenDeclList f tk) ∧
    groupSortSpec (write2bufFuncList f) ∧
    groupSortSpec (writeTypesReceiverFuncList f name) :=
  ⟨groupSortSpec_all _, groupSortSpec_all _, groupSortSpec_all _⟩

/-- Claim-side: the first `n` newline-terminated lines of the file (the
header "lines up to and including the package clause" when `n` is the
package clause's line number). -/
def takeLines : Nat → List Char → List Char
  | _, [] => []
  | 0, _ => []
  | n + 1, c :: cs => c :: (if c = '\n' then takeLines n cs else takeLines (n + 1) cs)

theorem writePkgIdx_cons (ch : Char) (cs : List Char) (j n : Nat) :
    writePkgIdx (ch :: cs) (j + 1) n = writePkgIdx cs j n + 1 := by
  induction n generalizing j with
  | zero => rfl
  | succ n ih =>
    simp only [writePkgIdx]
    have hd : (ch :: cs).drop (j + 1) = cs.drop j := rfl
    rw [hd]
    cases h : (cs.drop j).findIdx? (fun c => c = '\n') with
    | none => rfl
    | some c =>
      show writePkgIdx (ch :: cs) (j + 1 + c + 1) n = writePkgIdx cs (j + c + 1) n + 1
      have he : j + 1 + c + 1 = (j + c + 1) + 1 := by omega
      rw [he, ih]

theorem take_writePkgIdx : ∀ (content : List Char) (n : Nat),
    n ≤ content.count '\n' →
    content.take (writePkgIdx content 0 n) = takeLines n content := by
  intro content
  induction content with
  | nil =>
    intro n h
    simp only [List.count_nil, Nat.le_zero] at h
    subst h
    rfl
  | cons ch cs ih =>
    intro n h
    match n with
    | 0 => rfl
    | n + 1 =>
      by_cases hc : ch = '\n'
      · subst hc
        have h1 : writePkgIdx ('\n' :: cs) 0 (n + 1) = writePkgIdx cs 0 n + 1 := by
          simp only [writePkgIdx, List.drop_zero, List.findIdx?_cons]
          simp only [decide_True, if_true]
          show writePkgIdx ('\n' :: cs) (0 + 1) n = _
          rw [Nat.zero_add, writePkgIdx_cons]
        rw [h1]
        have h2 : n ≤ cs.count '\n' := by
          rw [List.count_cons] at h
          simp at h
          omega
        simp only [List.take_succ_cons, takeLines, if_true]
        rw [ih n h2]
      · have hcount : ('\n' : Char) ∈ ch :: cs → '\n' ∈ cs := by
          intro hm
          rcases List.mem_cons.mp hm with hm | hm
          · exact absurd hm.symm hc
          · exact hm
        cases hfind : cs.findIdx? (fun c => c = '\n') with
        | none =>
          exfalso
          have hnone := List.findIdx?_eq_none_iff.mp hfind
          have hzero : cs.count '\n' = 0 := by
            rw [List.count_eq_zero]
            intro hm
            have := hnone _ hm
            simp at this
          rw [List.count_cons] at h
          simp [hc, Ne.symm hc] at h
          omega
        | some c =>
          have h1 : writePkgIdx (ch :: cs) 0 (n + 1) = writePkgIdx cs 0 (n + 1) + 1 := by
            simp only [writePkgIdx, List.drop_zero, List.findIdx?_cons]
            have hcd : decide (ch = '\n') = false := by simp [hc]
            rw [hcd]
            simp only [Bool.false_eq_true, if_false, List.findIdx?_start_succ, hfind,
              Option.map_some]
            show writePkgIdx (ch :: cs) (0 + (c + (0 + 1)) + 1) n =
              writePkgIdx cs (0 + c + 1) n + 1
            have he1 : 0 + (c + (0 + 1)) + 1 = (c + 1) + 1 := by omega
            have he2 : 0 + c + 1 = c + 1 := by omega
            rw [he1, he2, writePkgIdx_cons]
          rw [h1]
          have h2 : n + 1 ≤ cs.count '\n' := by
            rw [List.count_cons] at h
            simp [hc, Ne.symm hc] at h
            omega
          simp only [List.take_succ_cons, takeLines, if_neg hc]
          rw [ih (n + 1) h2]

theorem writePkg_eq_takeLines (f : File) (content : List Char)
    (h : lineOfPos content f.package ≤ content.count '\n') :
    writePkg f content = takeLines (lineOfPos content f.package) content :=
  take_writePkgIdx content _ h

/-- Claim-side: an entry point is a receiverless function named `main` or
`init`. -/
def isEntryPointDecl : Decl → Bool
  | .func fd => (fd.name = "main" || fd.name = "init") && fd.recv?.isNone
  | _ => false

/-- Claim-side: the entry-point functions of the file, in original order. -/
def entryPointFuncs (f : File) : List FuncDecl :=
  f.decls.filterMap (fun d =>
    match d with
    | .func fd => if isEntryPointDecl (.func fd) then some fd else none
    | _ => none)

/-- Claim-side: the import declarations of the file, in original order. -/
def importDecls (f : File) : List GenDecl :=
  f.decls.filterMap (fun d =>
    match d with
    | .gen gd => if gd.tok = .importTok then some gd else none
    | _ => none)

/-- Claim-side: the free-floating comments — neither attached to a
declaration, nor embedded inside one, nor preceding the package clause —
in original order. -/
def freeComments (f : File) : List CommentGroup :=
  f.comments.filter (fun cg =>
    !(isDeclComment f cg) && !(isStatementComment f cg) &&
    !(isBeforePackageComment f cg))

theorem filterMap_map_filterMap {α β γ : Type _} (F : α → Option γ)
    (G : α → Option β) (h : β → γ)
    (hc : ∀ a, F a = (G a).map h) (l : List α) :
    l.filterMap F = (l.filterMap G).map h := by
  induction l with
  | nil => rfl
  | cons a as ih =>
    rw [List.filterMap_cons, List.filterMap_cons, hc a]
    cases G a with
    | none => simpa using ih
    | some b => simp [ih]

theorem filterMap_guard_eq_map_filter {α β : Type _} (p : α → Bool) (g : α → β)
    (F : α → Option β) (hc : ∀ a, F a = if p a then some (g a) else none)
    (l : List α) :
    l.filterMap F = (l.filter p).map g := by
  induction l with
  | nil => rfl
  | cons a as ih =>
    rw [List.filterMap_cons, List.filter_cons, hc a]
    cases hp : p a <;> simp [hp, ih]

theorem write2bufTop_eq (f : File) (content : List Char) :
    write2bufTop f content =
      ((importDecls f).map (fun gd => write2bufAsDecl content gd true)).flatten := rfl

theorem writeMain_eq (f : File) (content : List Char) :
    writeMain f content =
      ((entryPointFuncs f).map (fun fd => write2bufAsFunc content fd true)).flatten := by
  unfold writeMain entryPointFuncs
  congr 1
  apply filterMap_map_filterMap
  intro d
  cases d with
  | gen gd => rfl
  | bad p e => rfl
  | func fd =>
    simp only [isEntryPointDecl]
    cases hr : fd.recv?.isSome with
    | true =>
      have hn : fd.recv?.isNone = false := by
        cases ho : fd.recv?
        · rw [ho] at hr
          cases hr
        · rfl
      simp [hr, hn]
    | false =>
      have hn : fd.recv?.isNone = true := by
        cases ho : fd.recv?
        · rfl
        · rw [ho] at hr
          cases hr
      by_cases hm : fd.name = "main" ∨ fd.name = "init"
      · have hb : (fd.name = "main" || fd.name = "init") = true := by
          rcases hm with hm | hm <;> simp [hm]
        simp [hr, hn, hm, hb]
      · push_neg at hm
        have hb : (fd.name = "main" || fd.name = "init") = false := by
          simp [hm.1, hm.2]
        simp [hr, hn, hb, hm.1, hm.2]

theorem write2bufTopComment_eq (f : File) (content : List Char) :
    write2bufTopComment f content =
      ((freeComments f).map (fun cg =>
        sliceContent content (cg.pos - 1) cg.endPos ++ ['\n'])).flatten := by
  unfold write2bufTopComment freeComments
  congr 1
  apply filterMap_guard_eq_map_filter
  intro cg
  by_cases hd : isDeclComment f cg = true
  · simp [hd]
  · by_cases hs : isStatementComment f cg = true
    · simp [hd, hs]
    · by_cases hb : isBeforePackageComment f cg = true
      · simp [hd, hs, hb]
      · simp [hd, hs, hb]

theorem mem_write2bufGenDeclList_tok {f : File} {tk : Tok} {p : String × GenDecl}
    (h : p ∈ write2bufGenDeclList f tk) : p.2.tok = tk := by
  unfold write2bufGenDeclList at h
  rcases List.mem_filterMap.mp h with ⟨d, _, hd⟩
  cases d with
  | func fd => cases hd
  | bad a b => cases hd
  | gen gd =>
    have hd2 : (if gd.tok ≠ tk ∨ gd.tok = Tok.importTok
        then (none : Option (String × GenDecl))
        else (genDeclLetter tk gd).map (fun n => (n, gd))) = some p := hd
    by_cases hg : gd.tok ≠ tk ∨ gd.tok = Tok.importTok
    · rw [if_pos hg] at hd2
      cases hd2
    · rw [if_neg hg] at hd2
      push_neg at hg
      cases ho : genDeclLetter tk gd with
      | none =>
        rw [ho] at hd2
        cases hd2
      | some n =>
        rw [ho] at hd2
        cases hd2
        exact hg.1

theorem mem_sortLetterDecls {α : Type} {l : List (String × α)} {p : String × α}
    (h : p ∈ sortLetterDecls l) : p ∈ l := by
  unfold sortLetterDecls at h
  exact List.mem_mergeSort.mp h

theorem write2bufGenDecl_eq_of_ne (f : File) (content : List Char) (tk : Tok)
    (wl : Bool) (hne : tk ≠ Tok.typeTok) :
    write2bufGenDecl f content tk wl =
      ((sortLetterDecls (write2bufGenDeclList f tk)).map
        (fun p => write2bufAsDecl content p.2 wl)).flatten := by
  unfold write2bufGenDecl
  congr 1
  apply List.map_congr_left
  intro p hp
  have ht := mem_write2bufGenDeclList_tok (mem_sortLetterDecls hp)
  rw [if_neg (by rw [ht]; exact hne), List.append_nil]

theorem write2bufGenDecl_type_eq (f : File) (content : List Char) (wl : Bool) :
    write2bufGenDecl f content Tok.typeTok wl =
      ((sortLetterDecls (write2bufGenDeclList f Tok.typeTok)).map
        (fun p => write2bufAsDecl content p.2 wl ++
          ((typeSpecNames p.2).map
            (fun n => writeTypesReceiverFunc f n content wl)).flatten)).flatten := by
  unfold write2bufGenDecl
  congr 1
  apply List.map_congr_left
  intro p hp
  have ht := mem_write2bufGenDeclList_tok (mem_sortLetterDecls hp)
  rw [if_pos ht]

/-- C1 (amended): for every input file whose package-clause line is
terminated by a newline, the assembled output before the final formatter
pass is exactly: the header lines up to and including the package
clause, then every one of the import declarations, then the block of
free-floating comments, then the entry-point functions in original
order, then the sorted constant groups, a newline separator, the sorted
variable groups, a newline separator, the sorted type groups each
immediately followed by its sorted methods, and finally the sorted
ungrouped functions.  The newline-termination condition cannot be
dropped: without it `writePkg` emits nothing and the package clause is
lost (see the counterexample at `c1BadContent`). -/
theorem claim_C1_emission_order (f : File) (content : List Char)
    (hn : lineOfPos content f.package ≤ content.count '\n') :
    assemble f content =
      takeLines (lineOfPos content f.package) content ++
      ((importDecls f).map (fun gd => write2bufAsDecl content gd true)).flatten ++
      ((freeComments f).map (fun cg =>
        sliceContent content (cg.pos - 1) cg.endPos ++ ['\n'])).flatten ++
      ((entryPointFuncs f).map (fun fd => write2bufAsFunc content fd true)).flatten ++
      ((sortLetterDecls (write2bufGenDeclList f Tok.constTok)).map
        (fun p => write2bufAsDecl content p.2 false)).flatten ++ ['\n'] ++
      ((sortLetterDecls (write2bufGenDeclList f Tok.varTok)).map
        (fun p => write2bufAsDecl content p.2 false)).flatten ++ ['\n'] ++
      ((sortLetterDecls (write2bufGenDeclList f Tok.typeTok)).map
        (fun p => write2bufAsDecl content p.2 true ++
          ((typeSpecNames p.2).map
            (fun n => writeTypesReceiverFunc f n content true)).flatten)).flatten ++
      ((sortLetterDecls (write2bufFuncList f)).map
        (fun p => write2bufAsFunc content p.2 true)).flatten := by
  unfold assemble write2bufPre
  rw [writePkg_eq_takeLines f content hn, write2bufTop_eq, write2bufTopComment_eq,
    writeMain_eq, write2bufGenDecl_eq_of_ne f content Tok.constTok false (by decide),
    write2bufGenDecl_eq_of_ne f content Tok.varTok false (by decide),
    write2bufGenDecl_type_eq, write2bufFunc]
  simp [List.append_assoc]

/-- Concrete input for the C1 witness: `package p`, blank line,
`func F() {}`. -/
def c1Content : List Char := "package p\n\nfunc F() {}\n".toList

/-- The parse of `c1Content`. -/
def c1File : File :=
  { package := 1
    decls := [.func ⟨"F", none, 12, 23, none⟩]
    comments := [] }

/-- Witness for C1 at a concrete one-function file, discharging the
newline-terminated-header hypothesis. -/
theorem claim_C1_emission_order_witness :
    assemble c1File c1Content =
      takeLines (lineOfPos c1Content c1File.package) c1Content ++
      ((importDecls c1File).map (fun gd => write2bufAsDecl c1Content gd true)).flatten ++
      ((freeComments c1File).map (fun cg =>
        sliceContent c1Content (cg.pos - 1) cg.endPos ++ ['\n'])).flatten ++
      ((entryPointFuncs c1File).map (fun fd => write2bufAsFunc c1Content fd true)).flatten ++
      ((sortLetterDecls (write2bufGenDeclList c1File Tok.constTok)).map
        (fun p => write2bufAsDecl c1Content p.2 false)).flatten ++ ['\n'] ++
      ((sortLetterDecls (write2bufGenDeclList c1File Tok.varTok)).map
        (fun p => write2bufAsDecl c1Content p.2 false)).flatten ++ ['\n'] ++
      ((sortLetterDecls (write2bufGenDeclList c1File Tok.typeTok)).map
        (fun p => write2bufAsDecl c1Content p.2 true ++
          ((typeSpecNames p.2).map
            (fun n => writeTypesReceiverFunc c1File n c1Content true)).flatten)).flatten ++
      ((sortLetterDecls (write2bufFuncList c1File)).map
        (fun p => write2bufAsFunc c1Content p.2 true)).flatten :=
  claim_C1_emission_order c1File c1Content (by decide)

/-- Concrete counterexample input for C1 as originally stated: the
parseable file `package p` with no trailing newline after the package
clause. -/
def c1BadContent : List Char := "package p".toList

/-- The parse of `c1BadContent`: just the package clause. -/
def c1BadFile : File := { package := 1, decls := [], comments := [] }

/-- C1 counterexample: on a parseable file whose package-clause line is
not newline-terminated, `writePkg`'s scanning loop finds no newline and
copies nothing, so the assembled pre-formatter output is just the two
section separators and the package clause is dropped entirely — the
output is not the claimed sequence beginning with the header lines up to
and including the package clause. -/
theorem claim_C1_counterexample :
    assemble c1BadFile c1BadContent = "\n\n".toList ∧
    takeLines (lineOfPos c1BadContent c1BadFile.package) c1BadContent ++
      ((importDecls c1BadFile).map
        (fun gd => write2bufAsDecl c1BadContent gd true)).flatten ++
      ((freeComments c1BadFile).map (fun cg =>
        sliceContent c1BadContent (cg.pos - 1) cg.endPos ++ ['\n'])).flatten ++
      ((entryPointFuncs c1BadFile).map
        (fun fd => write2bufAsFunc c1BadContent fd true)).flatten ++
      ((sortLetterDecls (write2bufGenDeclList c1BadFile Tok.constTok)).map
        (fun p => write2bufAsDecl c1BadContent p.2 false)).flatten ++ ['\n'] ++
      ((sortLetterDecls (write2bufGenDeclList c1BadFile Tok.varTok)).map
        (fun p => write2bufAsDecl c1BadContent p.2 false)).flatten ++ ['\n'] ++
      ((sortLetterDecls (write2bufGenDeclList c1BadFile Tok.typeTok)).map
        (fun p => write2bufAsDecl c1BadContent p.2 true ++
          ((typeSpecNames p.2).map
            (fun n => writeTypesReceiverFunc c1BadFile n c1BadContent true)).flatten)).flatten ++
      ((sortLetterDecls (write2bufFuncList c1BadFile)).map
        (fun p => write2bufAsFunc c1BadContent p.2 true)).flatten =
      "package p\n\n".toList ∧
    assemble c1BadFile c1BadContent ≠
      takeLines (lineOfPos c1BadContent c1BadFile.package) c1BadContent ++
      ((importDecls c1BadFile).map
        (fun gd => write2bufAsDecl c1BadContent gd true)).flatten ++
      ((freeComments c1BadFile).map (fun cg =>
        sliceContent c1BadContent (cg.pos - 1) cg.endPos ++ ['\n'])).flatten ++
      ((entryPointFuncs c1BadFile).map
        (fun fd => write2bufAsFunc c1BadContent fd true)).flatten ++
      ((sortLetterDecls (write2bufGenDeclList c1BadFile Tok.constTok)).map
        (fun p => write2bufAsDecl c1BadContent p.2 false)).flatten ++ ['\n'] ++
      ((sortLetterDecls (write2bufGenDeclList c1BadFile Tok.varTok)).map
        (fun p => write2bufAsDecl c1BadContent p.2 false)).flatten ++ ['\n'] ++
      ((sortLetterDecls (write2bufGenDeclList c1BadFile Tok.typeTok)).map
        (fun p => write2bufAsDecl c1BadContent p.2 true ++
          ((typeSpecNames p.2).map
            (fun n => writeTypesReceiverFunc c1BadFile n c1BadContent true)).flatten)).flatten ++
      ((sortLetterDecls (write2bufFuncList c1BadFile)).map
        (fun p => write2bufAsFunc c1BadContent p.2 true)).flatten := by
  have heval : assemble c1BadFile c1BadContent = "\n\n".toList := by
    simp [assemble, write2bufPre, writePkg, writePkgIdx, lineOfPos,
      write2bufTop, write2bufTopComment, writeMain, write2bufGenDecl,
      write2bufFunc, write2bufFuncList, write2bufGenDeclList,
      sortLetterDecls, List.mergeSort, c1BadFile, c1BadContent]
  have hR : takeLines (lineOfPos c1BadContent c1BadFile.package) c1BadContent ++
      ((importDecls c1BadFile).map
        (fun gd => write2bufAsDecl c1BadContent gd true)).flatten ++
      ((freeComments c1BadFile).map (fun cg =>
        sliceContent c1BadContent (cg.pos - 1) cg.endPos ++ ['\n'])).flatten ++
      ((entryPointFuncs c1BadFile).map
        (fun fd => write2bufAsFunc c1BadContent fd true)).flatten ++
      ((sortLetterDecls (write2bufGenDeclList c1BadFile Tok.constTok)).map
        (fun p => write2bufAsDecl c1BadContent p.2 false)).flatten ++ ['\n'] ++
      ((sortLetterDecls (write2bufGenDeclList c1BadFile Tok.varTok)).map
        (fun p => write2bufAsDecl c1BadContent p.2 false)).flatten ++ ['\n'] ++
      ((sortLetterDecls (write2bufGenDeclList c1BadFile Tok.typeTok)).map
        (fun p => write2bufAsDecl c1BadContent p.2 true ++
          ((typeSpecNames p.2).map
            (fun n => writeTypesReceiverFunc c1BadFile n c1BadContent true)).flatten)).flatten ++
      ((sortLetterDecls (write2bufFuncList c1BadFile)).map
        (fun p => write2bufAsFunc c1BadContent p.2 true)).flatten =
      "package p\n\n".toList := by
    simp [importDecls, freeComments, entryPointFuncs, write2bufGenDeclList,
      write2bufFuncList, sortLetterDecls, List.mergeSort, c1BadFile,
      takeLines, lineOfPos, c1BadContent]
  refine ⟨heval, hR, ?_⟩
  rw [heval, hR]
  decide

/-- C9 (amended): the emitter copies, for every emission unit, the byte
range from the unit's doc-inclusive start through one byte past its end
verbatim from the original buffer; it appends a single newline (not a
blank line) after each import, free comment, entry point, type group,
method and ungrouped function, and writes a single newline after the
constant section and after the variable section; it inserts nothing
at all between consecutive constant (or variable) groups. -/
theorem claim_C9_amended_emitter (f : File) (content : List Char) :
    write2bufPre f content =
      ((importDecls f).map (fun gd =>
        sliceContent content (declStartPos gd.pos gd.docPos?) gd.endPos ++ ['\n'])).flatten ++
      ((freeComments f).map (fun cg =>
        sliceContent content (cg.pos - 1) cg.endPos ++ ['\n'])).flatten ++
      ((entryPointFuncs f).map (fun fd =>
        sliceContent content (declStartPos fd.pos fd.docPos?) fd.endPos ++ ['\n'])).flatten ++
      ((sortLetterDecls (write2bufGenDeclList f Tok.constTok)).map (fun p =>
        sliceContent content (declStartPos p.2.pos p.2.docPos?) p.2.endPos)).flatten ++ ['\n'] ++
      ((sortLetterDecls (write2bufGenDeclList f Tok.varTok)).map (fun p =>
        sliceContent content (declStartPos p.2.pos p.2.docPos?) p.2.endPos)).flatten ++ ['\n'] ++
      ((sortLetterDecls (write2bufGenDeclList f Tok.typeTok)).map (fun p =>
        sliceContent content (declStartPos p.2.pos p.2.docPos?) p.2.endPos ++ ['\n'] ++
        ((typeSpecNames p.2).map (fun n =>
          ((sortLetterDecls (writeTypesReceiverFuncList f n)).map (fun q =>
            sliceContent content (declStartPos q.2.pos q.2.docPos?) q.2.endPos ++
              ['\n'])).flatten)).flatten)).flatten ++
      ((sortLetterDecls (write2bufFuncList f)).map (fun p =>
        sliceContent content (declStartPos p.2.pos p.2.docPos?) p.2.endPos ++ ['\n'])).flatten := by
  rw [write2bufPre, write2bufTop_eq, write2bufTopComment_eq, writeMain_eq,
    write2bufGenDecl_eq_of_ne f content Tok.constTok false (by decide),
    write2bufGenDecl_eq_of_ne f content Tok.varTok false (by decide),
    write2bufGenDecl_type_eq, write2bufFunc]
  simp [write2bufAsDecl, write2bufAsFunc, writeTypesReceiverFunc, List.append_assoc]

/-- Concrete input for the C9 counterexample: two single-spec type
groups `B` and `a`. -/
def c9Content : List Char := "package p\n\ntype B int\n\ntype a int\n".toList

/-- The parse of `c9Content`. -/
def c9File : File :=
  { package := 1
    decls := [.gen ⟨.typeTok, [.typeSpec (some "B")], 12, 22, none⟩,
              .gen ⟨.typeTok, [.typeSpec (some "a")], 24, 34, none⟩]
    comments := [] }

/-- C9 counterexample: the two type groups `B` (bytes 11..20, 0-based)
and `a` (bytes 23..32) are members of the same sorted group, yet the
emitted type section holds a blank line between them (and after each of
them), because each copied range extends one byte past the declaration
and a newline is appended on top: the claim's "single blank-line
separators only at the group boundaries ... never between declarations
inside the same group" fails. -/
theorem claim_C9_counterexample :
    write2bufGenDecl c9File c9Content Tok.typeTok true =
      "type B int\n\ntype a int\n\n".toList ∧
    sliceContent c9Content (12 - 1) (22 - 1) = "type B int".toList ∧
    sliceContent c9Content (24 - 1) (34 - 1) = "type a int".toList := by
  refine ⟨?_, by decide, by decide⟩
  have h1 : write2bufGenDeclList c9File Tok.typeTok =
      [("B", ⟨Tok.typeTok, [Spec.typeSpec (some "B")], 12, 22, none⟩),
       ("a", ⟨Tok.typeTok, [Spec.typeSpec (some "a")], 24, 34, none⟩)] := by decide
  have hll : letterLess "a" "B" = false := by decide
  have hWB : writeTypesReceiverFunc c9File "B" c9Content true = [] := by
    rw [writeTypesReceiverFunc, show writeTypesReceiverFuncList c9File "B" = [] from by decide]
    simp [sortLetterDecls]
  have hWa : writeTypesReceiverFunc c9File "a" c9Content true = [] := by
    rw [writeTypesReceiverFunc, show writeTypesReceiverFuncList c9File "a" = [] from by decide]
    simp [sortLetterDecls]
  rw [write2bufGenDecl, h1]
  rw [show sortLetterDecls
      [(("B" : String), (⟨Tok.typeTok, [Spec.typeSpec (some "B")], 12, 22, none⟩ : GenDecl)),
       (("a" : String), ⟨Tok.typeTok, [Spec.typeSpec (some "a")], 24, 34, none⟩)] =
      [(("B" : String), (⟨Tok.typeTok, [Spec.typeSpec (some "B")], 12, 22, none⟩ : GenDecl)),
       (("a" : String), ⟨Tok.typeTok, [Spec.typeSpec (some "a")], 24, 34, none⟩)] from by
    simp [sortLetterDecls, List.mergeSort, hll]]
  simp only [List.map_cons, List.map_nil, List.flatten_cons, List.flatten_nil,
    reduceIte,
    show typeSpecNames ⟨Tok.typeTok, [Spec.typeSpec (some "B")], 12, 22, none⟩ = ["B"]
      from by decide,
    show typeSpecNames ⟨Tok.typeTok, [Spec.typeSpec (some "a")], 24, 34, none⟩ = ["a"]
      from by decide,
    hWB, hWa]
  simp [write2bufAsDecl, sliceContent, declStartPos, c9Content]

/-- Concrete failing input for C4: a file with an empty `const ()` group
and a `main` function. -/
def c4Content : List Char := "package p\n\nconst ()\n\nfunc main() {}\n".toList

/-- The parse of `c4Content`. -/
def c4File : File :=
  { package := 1
    decls := [.gen ⟨.constTok, [], 12, 20, none⟩,
              .func ⟨"main", none, 22, 36, none⟩]
    comments := [] }

/-- C4 fails on the code: the input contains the declaration `const ()`,
but the assembled pre-formatter output drops it entirely (the collection
loop of `write2bufGenDecl` skips groups with no specs), so the emitted
spans do not reconstruct the original file's bytes and the declaration
does not appear in the output at all. -/
theorem claim_C4_empty_group_dropped :
    ("const ()".toList <:+: c4Content) ∧
    assemble c4File c4Content = "package p\nfunc main() {}\n\n\n\n".toList ∧
    ¬ ("const".toList <:+: assemble c4File c4Content) := by
  have heval : assemble c4File c4Content =
      "package p\nfunc main() {}\n\n\n\n".toList := by
    simp [assemble, write2bufPre, writePkg, writePkgIdx, lineOfPos,
      write2bufTop, write2bufTopComment, writeMain, write2bufGenDecl,
      write2bufFunc, write2bufFuncList, write2bufGenDeclList, genDeclLetter,
      typeSpecNames, writeTypesReceiverFunc, writeTypesReceiverFuncList,
      specHasTypeName, isDeclComment, isStatementComment, isBeforePackageComment,
      sortLetterDecls, List.mergeSort, write2bufAsFunc, write2bufAsDecl,
      sliceContent, declStartPos, c4File, c4Content, getTypeFromFile]
  refine ⟨by decide, heval, ?_⟩
  rw [heval]
  decide

/-- Concrete failing input for C5: a method named `main` whose receiver
type `Unknown` is not declared in the file. -/
def c5Content : List Char := "package p\n\nfunc (u Unknown) main() {}\n".toList

/-- The parse of `c5Content`. -/
def c5File : File :=
  { package := 1
    decls := [.func ⟨"main", some [.ident "Unknown"], 12, 38, none⟩]
    comments := [] }

/-- C5 fails on the code: a receiver-bound function named `main` whose
receiver type does not resolve in-file is skipped by `writeMain` (it has
a receiver) and also skipped by `write2bufFunc` (its name is `main`), so
it is not emitted anywhere — it is not "placed like any other method". -/
theorem claim_C5_receiver_main_dropped :
    ("main".toList <:+: c5Content) ∧
    assemble c5File c5Content = "package p\n\n\n".toList ∧
    ¬ ("main".toList <:+: assemble c5File c5Content) := by
  have heval : assemble c5File c5Content = "package p\n\n\n".toList := by
    simp [assemble, write2bufPre, writePkg, writePkgIdx, lineOfPos,
      write2bufTop, write2bufTopComment, writeMain, write2bufGenDecl,
      write2bufFunc, write2bufFuncList, write2bufGenDeclList, genDeclLetter,
      typeSpecNames, writeTypesReceiverFunc, writeTypesReceiverFuncList,
      specHasTypeName, isDeclComment, isStatementComment, isBeforePackageComment,
      sortLetterDecls, List.mergeSort, write2bufAsFunc, write2bufAsDecl,
      sliceContent, declStartPos, c5File, c5Content, getTypeFromFile]
  refine ⟨by decide, heval, ?_⟩
  rw [heval]
  decide

/-- Concrete failing input for C2: a method named `init` whose receiver
type `Unknown` is not declared in the file. -/
def c2Content : List Char := "package p\n\nfunc (u Unknown) init() {}\n".toList

/-- The parse of `c2Content`. -/
def c2File : File :=
  { package := 1
    decls := [.func ⟨"init", some [.ident "Unknown"], 12, 38, none⟩]
    comments := [] }

/-- C2 fails on the code in its unresolved-owner clause: the method
`init` on the in-file-unresolvable receiver type `Unknown` should be
emitted in the ungrouped-function group, but `write2bufFunc` skips every
function named `main`/`init` before the receiver check, so the method is
dropped from the output entirely. -/
theorem claim_C2_unresolved_method_dropped :
    getFuncReceiverTypeName
      (.func ⟨"Z", some [.star (.indexExpr (.ident "A"))], 1, 2, none⟩) = "A" ∧
    ("init".toList <:+: c2Content) ∧
    getTypeFromFile c2File (getFuncReceiverTypeName (.func ⟨"init",
      some [.ident "Unknown"], 12, 38, none⟩)) = none ∧
    assemble c2File c2Content = "package p\n\n\n".toList ∧
    ¬ ("init".toList <:+: assemble c2File c2Content) := by
  have heval : assemble c2File c2Content = "package p\n\n\n".toList := by
    simp [assemble, write2bufPre, writePkg, writePkgIdx, lineOfPos,
      write2bufTop, write2bufTopComment, writeMain, write2bufGenDecl,
      write2bufFunc, write2bufFuncList, write2bufGenDeclList, genDeclLetter,
      typeSpecNames, writeTypesReceiverFunc, writeTypesReceiverFuncList,
      specHasTypeName, isDeclComment, isStatementComment, isBeforePackageComment,
      sortLetterDecls, List.mergeSort, write2bufAsFunc, write2bufAsDecl,
      sliceContent, declStartPos, c2File, c2Content, getTypeFromFile]
  refine ⟨rfl, by decide, by decide, heval, ?_⟩
  rw [heval]
  decide

/-- C7: if for some file the read fails (file missing), the parse fails,
or the formatter pass on the assembled output fails, then
`sortActionByFilename` returns an error with the filesystem untouched
(every error path returns before `os.WriteFile`), and the batch loop
stops at this first fatal error: the error is wrapped with the offending
filename and no later file is processed or modified. -/
theorem claim_C7_first_error_stops
    (parseFile : List Char → Except String File)
    (sortImportsExt : File → File)
    (formatSource : List Char → Except String (List Char))
    (st : OsState) (file : String) (rest : List String) (write : Bool)
    (h : st.files file = none ∨
      (∃ content e, st.files file = some content ∧ parseFile content = .error e) ∨
      (∃ content f e, st.files file = some content ∧ parseFile content = .ok f ∧
        formatSource (assemble (sortImportsExt f) content) = .error e)) :
    ∃ e, sortActionByFilename parseFile sortImportsExt formatSource st file write =
        (st, .error e) ∧
      sortFile parseFile sortImportsExt formatSource write (file :: rest) st =
        (st, some ("sort file " ++ file ++ " error: " ++ e)) := by
  have hact : ∃ e, sortActionByFilename parseFile sortImportsExt formatSource
      st file write = (st, .error e) := by
    rcases h with h | ⟨content, e, hc, hp⟩ | ⟨content, f, e, hc, hp, hf⟩
    · exact ⟨"open " ++ file ++ ": no such file or directory",
        by simp only [sortActionByFilename, h]⟩
    · exact ⟨e, by simp only [sortActionByFilename, hc, hp]⟩
    · exact ⟨e, by simp only [sortActionByFilename, hc, hp, hf]⟩
  rcases hact with ⟨e, hact⟩
  refine ⟨e, hact, ?_⟩
  rw [sortFile, hact]

/-- A one-file filesystem used by the C7 witness. -/
def c7State : OsState :=
  ⟨fun n => if n = "a.go" then some "package p\n".toList else none⟩

/-- Witness for C7 at a concrete batch: the parser rejects the only
file's content, so the batch stops with the wrapped error and the
filesystem is untouched. -/
theorem claim_C7_first_error_stops_witness :
    ∃ e, sortActionByFilename (fun _ => .error "syntax error") (fun f => f)
        (fun s => .ok s) c7State "a.go" true = (c7State, .error e) ∧
      sortFile (fun _ => .error "syntax error") (fun f => f) (fun s => .ok s) true
        ["a.go", "b.go"] c7State =
        (c7State, some ("sort file " ++ "a.go" ++ " error: " ++ e)) :=
  claim_C7_first_error_stops (fun _ => .error "syntax error") (fun f => f)
    (fun s => .ok s) c7State "a.go" ["b.go"] true
    (Or.inr (Or.inl ⟨"package p\n".toList, "syntax error", by decide, rfl⟩))

/-- C8: with write-back off, `sortActionByFilename` never mutates the
filesystem, whatever happens; and on the success path (read, parse and
format all succeed), in either mode, the reported `changed` boolean is
true exactly when the formatter's output bytes differ from the original
file content. -/
theorem claim_C8_dry_run_and_changed
    (parseFile : List Char → Except String File)
    (sortImportsExt : File → File)
    (formatSource : List Char → Except String (List Char))
    (st : OsState) (file : String) (content out : List Char) (f : File)
    (write : Bool)
    (hc : st.files file = some content)
    (hp : parseFile content = .ok f)
    (hf : formatSource (assemble (sortImportsExt f) content) = .ok out) :
    (∀ (st' : OsState) (file' : String),
      (sortActionByFilename parseFile sortImportsExt formatSource st' file' false).1 =
        st') ∧
    (sortActionByFilename parseFile sortImportsExt formatSource st file write).2 =
      .ok (decide (¬ content = out)) := by
  constructor
  · intro st' file'
    rw [sortActionByFilename]
    split
    · rfl
    · split
      · rfl
      · split
        · rfl
        · rfl
  · simp only [sortActionByFilename, hc, hp, hf]
    cases write <;> rfl

/-- The trivial parsed file used by the C8 witness. -/
def c8File : File := ⟨1, [], []⟩

/-- A one-file filesystem used by the C8 witness. -/
def c8State : OsState :=
  ⟨fun n => if n = "a.go" then some "package p\n".toList else none⟩

/-- Witness for C8 at a concrete state: the identity formatter returns
the assembled bytes, and the dry-run state projection is the input
state. -/
theorem claim_C8_dry_run_and_changed_witness :
    (∀ (st' : OsState) (file' : String),
      (sortActionByFilename (fun _ => .ok c8File) (fun f => f)
        (fun s => .ok s) st' file' false).1 = st') ∧
    (sortActionByFilename (fun _ => .ok c8File) (fun f => f) (fun s => .ok s)
      c8State "a.go" false).2 =
      .ok (decide (¬ "package p\n".toList =
        assemble c8File "package p\n".toList)) :=
  claim_C8_dry_run_and_changed (fun _ => .ok c8File) (fun f => f)
    (fun s => .ok s) c7State "a.go" "package p\n".toList
    (assemble c8File "package p\n".toList) c8File false (by decide) rfl rfl

theorem filterMap_eq_of_forall₂ {α β : Type _} {r : α → α → Prop}
    {l₁ l₂ : List α} (hl : List.Forall₂ r l₁ l₂) (F : α → Option β)
    (H : ∀ a b, r a b → F b = F a) : l₂.filterMap F = l₁.filterMap F := by
  induction hl with
  | nil => rfl
  | cons hr _ ih =>
    rw [List.filterMap_cons, List.filterMap_cons, H _ _ hr, ih]

theorem any_eq_of_forall₂ {α : Type _} {r : α → α → Prop}
    {l₁ l₂ : List α} (hl : List.Forall₂ r l₁ l₂) (p : α → Bool)
    (H : ∀ a b, r a b → p b = p a) : l₂.any p = l₁.any p := by
  induction hl with
  | nil => rfl
  | cons hr _ ih =>
    rw [List.any_cons, List.any_cons, H _ _ hr, ih]

theorem find?_eq_of_forall₂ {α : Type _} {r : α → α → Prop}
    {l₁ l₂ : List α} (hl : List.Forall₂ r l₁ l₂) (p : α → Bool)
    (H : ∀ a b, r a b → p b = p a)
    (H2 : ∀ a b, r a b → p a = true → b = a) :
    l₂.find? p = l₁.find? p := by
  induction hl with
  | nil => rfl
  | cons hr hlt ih =>
    rename_i a b l₁t l₂t
    rw [List.find?_cons, List.find?_cons, H a b hr]
    cases hp : p a with
    | false => exact ih
    | true => rw [H2 a b hr hp]

/-- What `ast.SortImports` may do to one declaration: it rewrites the
specs inside an import declaration (reordering them and adjusting their
positions) but leaves the declaration's token, span and doc comment
alone, and does not touch any other declaration. -/
def declImportRewrite : Decl → Decl → Prop
  | .gen gd, .gen ge =>
    ge.tok = gd.tok ∧ ge.pos = gd.pos ∧ ge.endPos = gd.endPos ∧
    ge.docPos? = gd.docPos? ∧ (gd.tok ≠ Tok.importTok → ge.specs = gd.specs)
  | d, e => e = d

/-- `g` is `f` after an `ast.SortImports`-shaped rewrite: the package
position and the comment list are untouched and every declaration is
rewritten per `declImportRewrite`. -/
def sortImportsRewrite (f g : File) : Prop :=
  g.package = f.package ∧ g.comments = f.comments ∧
  List.Forall₂ declImportRewrite f.decls g.decls

theorem declImportRewrite_gen_eq {gd ge : GenDecl}
    (hr : declImportRewrite (.gen gd) (.gen ge))
    (hni : gd.tok ≠ Tok.importTok) : ge = gd := by
  obtain ⟨ht, hp, he, hdoc, hspec⟩ := hr
  cases gd
  cases ge
  simp_all [hspec hni]

theorem getTypeFromFile_rewrite {f g : File} (h : sortImportsRewrite f g)
    (name : String) : getTypeFromFile g name = getTypeFromFile f name := by
  rw [getTypeFromFile, getTypeFromFile]
  by_cases hname : name = ""
  · rw [if_pos hname, if_pos hname]
  · rw [if_neg hname, if_neg hname]
    apply find?_eq_of_forall₂ h.2.2
    · intro a b hr
      cases a with
      | func fd => cases b <;> simp_all [declImportRewrite]
      | bad x y => cases b <;> simp_all [declImportRewrite]
      | gen gd =>
        cases b with
        | func fe => simp_all [declImportRewrite]
        | bad x y => simp_all [declImportRewrite]
        | gen ge =>
          obtain ⟨ht, hp, he, hdoc, hspec⟩ := hr
          show (decide (ge.tok = Tok.typeTok) && ge.specs.any (specHasTypeName name)) =
            (decide (gd.tok = Tok.typeTok) && gd.specs.any (specHasTypeName name))
          by_cases htt : gd.tok = Tok.typeTok
          · rw [ht, hspec (by rw [htt]; decide)]
          · rw [ht]
            have h1 : (decide (gd.tok = Tok.typeTok)) = false := by simp [htt]
            rw [h1]
            simp
    · intro a b hr hp
      cases a with
      | func fd => cases b <;> simp_all [declImportRewrite]
      | bad x y => cases b <;> simp_all [declImportRewrite]
      | gen gd =>
        cases b with
        | func fe => simp_all [declImportRewrite]
        | bad x y => simp_all [declImportRewrite]
        | gen ge =>
          have hp2 : (decide (gd.tok = Tok.typeTok) &&
              gd.specs.any (specHasTypeName name)) = true := hp
          have htt : gd.tok = Tok.typeTok := by
            simp only [Bool.and_eq_true, decide_eq_true_eq] at hp2
            exact hp2.1
          rw [declImportRewrite_gen_eq hr (by rw [htt]; decide)]

theorem declPos_rewrite {a b : Decl} (hr : declImportRewrite a b) :
    declPos b = declPos a := by
  cases a with
  | gen gd =>
    cases b with
    | gen ge => exact hr.2.1
    | func fe => simp_all [declImportRewrite]
    | bad x y => simp_all [declImportRewrite]
  | func fd => rw [show b = .func fd from hr]
  | bad x y => rw [show b = .bad x y from hr]

theorem declEnd_rewrite {a b : Decl} (hr : declImportRewrite a b) :
    declEnd b = declEnd a := by
  cases a with
  | gen gd =>
    cases b with
    | gen ge => exact hr.2.2.1
    | func fe => simp_all [declImportRewrite]
    | bad x y => simp_all [declImportRewrite]
  | func fd => rw [show b = .func fd from hr]
  | bad x y => rw [show b = .bad x y from hr]

/-- C10 (amended): `sortActionByFilename` does call `ast.SortImports`
before emitting, but the pass has no effect on the assembled
pre-formatter output: the emitter slices the original buffer by each of
the import declarations' unchanged spans and never reads the import specs, so
the import block is carried over verbatim, with its specs still in
original order; any canonical reordering of import specs in the final
output is produced solely by the external formatter pass. -/
theorem claim_C10_amended_sortImports_no_effect (f g : File)
    (content : List Char) (h : sortImportsRewrite f g) :
    assemble g content = assemble f content := by
  obtain ⟨hpkg, hcom, hd⟩ := h
  have hgt : ∀ name, getTypeFromFile g name = getTypeFromFile f name :=
    getTypeFromFile_rewrite ⟨hpkg, hcom, hd⟩
  have hPkg : writePkg g content = writePkg f content := by
    rw [writePkg, writePkg, hpkg]
  have hTop : write2bufTop g content = write2bufTop f content := by
    rw [write2bufTop, write2bufTop, List.map_filterMap, List.map_filterMap]
    congr 1
    apply filterMap_eq_of_forall₂ hd
    intro a b hr
    cases a with
    | gen gd =>
      cases b with
      | gen ge =>
        obtain ⟨ht, hp, he, hdoc, _⟩ := hr
        show ((if ge.tok = Tok.importTok then some ge else none).map
            (fun gd => write2bufAsDecl content gd true)) =
          ((if gd.tok = Tok.importTok then some gd else none).map
            (fun gd => write2bufAsDecl content gd true))
        rw [ht]
        by_cases hi : gd.tok = Tok.importTok
        · rw [if_pos hi, if_pos hi]
          show some (write2bufAsDecl content ge true) =
            some (write2bufAsDecl content gd true)
          rw [write2bufAsDecl, write2bufAsDecl, hp, he, hdoc]
        · rw [if_neg hi, if_neg hi]
      | func fe => cases show Decl.func fe = Decl.gen gd from hr
      | bad x y => cases show Decl.bad x y = Decl.gen gd from hr
    | func fd => rw [show b = .func fd from hr]
    | bad x y => rw [show b = .bad x y from hr]
  have hCom : write2bufTopComment g content = write2bufTopComment f content := by
    rw [write2bufTopComment, write2bufTopComment, hcom]
    have hpred : ∀ cg, (isDeclComment g cg = isDeclComment f cg) ∧
        (isStatementComment g cg = isStatementComment f cg) ∧
        (isBeforePackageComment g cg = isBeforePackageComment f cg) := by
      intro cg
      refine ⟨?_, ?_, ?_⟩
      · exact any_eq_of_forall₂ hd _ (fun a b hr => by rw [declPos_rewrite hr])
      · exact any_eq_of_forall₂ hd _ (fun a b hr => by
          rw [declPos_rewrite hr, declEnd_rewrite hr])
      · rw [isBeforePackageComment, isBeforePackageComment, hpkg]
    congr 1
    apply List.filterMap_congr
    intro cg _
    rw [(hpred cg).1, (hpred cg).2.1, (hpred cg).2.2]
  have hMain : writeMain g content = writeMain f content := by
    rw [writeMain, writeMain]
    congr 1
    apply filterMap_eq_of_forall₂ hd
    intro a b hr
    cases a with
    | gen gd => cases b <;> simp_all [declImportRewrite]
    | func fd => rw [show b = .func fd from hr]
    | bad x y => rw [show b = .bad x y from hr]
  have hRecvList : ∀ name, writeTypesReceiverFuncList g name =
      writeTypesReceiverFuncList f name := by
    intro name
    rw [writeTypesReceiverFuncList, writeTypesReceiverFuncList]
    apply filterMap_eq_of_forall₂ hd
    intro a b hr
    cases a with
    | gen gd => cases b <;> simp_all [declImportRewrite]
    | func fd => rw [show b = .func fd from hr]
    | bad x y => rw [show b = .bad x y from hr]
  have hRecv : ∀ name wl, writeTypesReceiverFunc g name content wl =
      writeTypesReceiverFunc f name content wl := by
    intro name wl
    rw [writeTypesReceiverFunc, writeTypesReceiverFunc, hRecvList]
  have hGenList : ∀ tk, write2bufGenDeclList g tk = write2bufGenDeclList f tk := by
    intro tk
    rw [write2bufGenDeclList, write2bufGenDeclList]
    apply filterMap_eq_of_forall₂ hd
    intro a b hr
    cases a with
    | func fd => cases b <;> simp_all [declImportRewrite]
    | bad x y => cases b <;> simp_all [declImportRewrite]
    | gen gd =>
      cases b with
      | func fe => simp_all [declImportRewrite]
      | bad x y => simp_all [declImportRewrite]
      | gen ge =>
        have ht := hr.1
        show (if ge.tok ≠ tk ∨ ge.tok = Tok.importTok then none
            else (genDeclLetter tk ge).map (fun n => (n, ge))) =
          (if gd.tok ≠ tk ∨ gd.tok = Tok.importTok then none
            else (genDeclLetter tk gd).map (fun n => (n, gd)))
        rw [ht]
        by_cases hg : gd.tok ≠ tk ∨ gd.tok = Tok.importTok
        · rw [if_pos hg, if_pos hg]
        · rw [if_neg hg, if_neg hg]
          push_neg at hg
          rw [declImportRewrite_gen_eq hr hg.2]
  have hGen : ∀ tk wl, write2bufGenDecl g content tk wl =
      write2bufGenDecl f content tk wl := by
    intro tk wl
    rw [write2bufGenDecl, write2bufGenDecl, hGenList]
    simp only [hRecv]
  have hFuncList : write2bufFuncList g = write2bufFuncList f := by
    rw [write2bufFuncList, write2bufFuncList]
    simp only [hgt]
    apply filterMap_eq_of_forall₂ hd
    intro a b hr
    cases a with
    | gen gd => cases b <;> simp_all [declImportRewrite]
    | func fd => rw [show b = .func fd from hr]
    | bad x y => rw [show b = .bad x y from hr]
  have hFunc : write2bufFunc g content true = write2bufFunc f content true := by
    rw [write2bufFunc, write2bufFunc, hFuncList]
  rw [assemble, assemble, write2bufPre, write2bufPre, hPkg, hTop, hCom, hMain,
    hGen, hGen, hGen, hFunc]

/-- Concrete input for C10: an import block whose specs `"b"`, `"a"` are
not in canonical order. -/
def c10Content : List Char :=
  "package p\n\nimport (\n\t\"b\"\n\t\"a\"\n)\n".toList

/-- The parse of `c10Content`. -/
def c10File : File :=
  { package := 1
    decls := [.gen ⟨.importTok, [.importSpec "b", .importSpec "a"], 12, 32, none⟩]
    comments := [] }

/-- `c10File` after `ast.SortImports`: the specs are reordered into
canonical order, the declaration's span is unchanged. -/
def c10FileSorted : File :=
  { package := 1
    decls := [.gen ⟨.importTok, [.importSpec "a", .importSpec "b"], 12, 32, none⟩]
    comments := [] }

/-- C10 counterexample: even on the tree rewritten by the
`ast.SortImports`-shaped pass, the assembled pre-formatter output still
carries the import block verbatim with `"b"` before `"a"` — the specs
are not reordered in the emission, contradicting the claim that the
emitted import declarations are rewritten into canonical sorted
order. -/
theorem claim_C10_counterexample :
    sortImportsRewrite c10File c10FileSorted ∧
    assemble c10FileSorted c10Content =
      "package p\nimport (\n\t\"b\"\n\t\"a\"\n)\n\n\n\n".toList ∧
    ("\"b\"\n\t\"a\"".toList <:+: assemble c10FileSorted c10Content) := by
  have heval : assemble c10FileSorted c10Content =
      "package p\nimport (\n\t\"b\"\n\t\"a\"\n)\n\n\n\n".toList := by
    simp [assemble, write2bufPre, writePkg, writePkgIdx, lineOfPos,
      write2bufTop, write2bufTopComment, writeMain, write2bufGenDecl,
      write2bufFunc, write2bufFuncList, write2bufGenDeclList, genDeclLetter,
      typeSpecNames, writeTypesReceiverFunc, writeTypesReceiverFuncList,
      specHasTypeName, isDeclComment, isStatementComment, isBeforePackageComment,
      sortLetterDecls, List.mergeSort, write2bufAsFunc, write2bufAsDecl,
      sliceContent, declStartPos, c10FileSorted, c10Content, getTypeFromFile]
  refine ⟨?_, heval, ?_⟩
  · refine ⟨rfl, rfl, ?_⟩
    constructor
    · exact ⟨rfl, rfl, rfl, rfl, fun hh => absurd rfl hh⟩
    · constructor
  · rw [heval]
    decide

/-- Witness for the amended C10 at the concrete import file: the
assembled output is identical before and after the import-sorting
pass. -/
theorem claim_C10_amended_witness :
    assemble c10FileSorted c10Content = assemble c10File c10Content :=
  claim_C10_amended_sortImports_no_effect c10File c10FileSorted c10Content
    ⟨rfl, rfl, by
      constructor
      · exact ⟨rfl, rfl, rfl, rfl, fun hh => absurd rfl hh⟩
      · constructor⟩

end GoSort
